import Mathlib

/-
Verification of the route-generation core of the AccessMap application
(src/src/lib/overpass-api.ts): waypoint selection, greedy route assembly,
smoothing with random jitter, distance metrics, and step narration.

Modelling conventions.
JavaScript numbers are modelled as exact rationals.  The source computes
all point-to-point distances with the float Haversine helper
calculateDistance; the pipeline definitions below take that distance
function as an explicit parameter dist : DistFn (any rational-valued model
of the float function), so the structural theorems hold for every distance
function.  The same is done for the float bearing helper getDirection
(parameter dirFn).  The idealized real-number Haversine itself is embedded
separately as calculateDistance, over the real numbers, for the metric
claims.  Math.random() is modelled as an explicit stream rng : Nat to Rat of
values in [0, 1): the jitter loop reads the stream at consecutive indices
(two draws per inserted point), and the step narrator reads its single
draw at index 0 of its own stream.
-/

namespace AccessMap

/-- A geographic point, (latitude, longitude) in decimal degrees. -/
abbrev Point := ℚ × ℚ

/-- A rational-valued two-point function: the type of the modelled
calculateDistance and getDirection helpers of the source. -/
abbrev DistFn := Point → Point → ℚ

/-- The fields of the source interface Place that the route core reads:
coordinates, the display name, and the accessibility feature tags
(the id and the contact fields are never consulted by the core). -/
structure Place where
  id : ℤ
  name : String
  lat : ℚ
  lng : ℚ
  accessibilityFeatures : List String
  deriving DecidableEq

/-- One narration step, as returned by generateRouteSteps. -/
structure RouteStep where
  instruction : String
  distance : String
  duration : String
  isAccessible : Bool
  deriving DecidableEq

/-- The bundle assembled by fetchRoute: polyline, metric totals and steps. -/
structure RouteResult where
  route : List Point
  distance : ℚ
  duration : ℚ
  steps : List RouteStep
  deriving DecidableEq

/-- Sum of consecutive-vertex distances: calculateTotalDistance of the
source, generic in the distance function (and thus usable both with a
rational dist parameter and with the real Haversine). -/
def calculateTotalDistance {α K : Type} [Zero K] [Add K] (d : α → α → K) :
    List α → K
  | [] => 0
  | [_] => 0
  | p :: q :: rest => d p q + calculateTotalDistance d (q :: rest)

/-- Detour length through a candidate place:
dist(start, place) + dist(place, end), as computed inside
generateAccessibleRoute. -/
def detourDistance (dist : DistFn) (s e : Point) (p : Place) : ℚ :=
  dist s (p.lat, p.lng) + dist (p.lat, p.lng) e

/-- The filter step of generateAccessibleRoute: keep a candidate only when
its detour distance is at most 1.2 times the direct distance. -/
def potentialWaypoints (dist : DistFn) (s e : Point) (places : List Place) :
    List Place :=
  places.filter fun p => decide (detourDistance dist s e p ≤ dist s e * (6 / 5))

/-- Does some accessibility feature contain the substring "ramp",
case-insensitively?  Models f.toLowerCase().includes(&quot;ramp&quot;); a string
contains "ramp" exactly when splitting on it yields more than one piece. -/
def hasRampFeature (p : Place) : Bool :=
  p.accessibilityFeatures.any fun f => (f.toLower.splitOn "ramp").length > 1

/-- The sort comparator of generateAccessibleRoute: feature-count
difference first, then (for the wheelchair profile) the ramp tie-break,
then the difference of the deviations from the direct path. -/
def compareWaypoints (dist : DistFn) (s e : Point) (profile : String)
    (a b : Place) : ℚ :=
  let featureDiff : ℚ :=
    (b.accessibilityFeatures.length : ℚ) - (a.accessibilityFeatures.length : ℚ)
  if featureDiff ≠ 0 then featureDiff
  else if profile = "wheelchair" ∧ hasRampFeature a ∧ ¬hasRampFeature b then -1
  else if profile = "wheelchair" ∧ ¬hasRampFeature a ∧ hasRampFeature b then 1
  else (detourDistance dist s e a - dist s e) - (detourDistance dist s e b - dist s e)

/-- Boolean order induced by the comparator: a sorts no later than b when
the comparator is nonpositive.  Array.prototype.sort with a consistent
comparator is a stable sort by this relation. -/
def waypointLE (dist : DistFn) (s e : Point) (profile : String)
    (a b : Place) : Bool :=
  decide (compareWaypoints dist s e profile a b ≤ 0)

/-- The sorted candidate list of generateAccessibleRoute. -/
def sortedWaypoints (dist : DistFn) (s e : Point) (places : List Place)
    (profile : String) : List Place :=
  (potentialWaypoints dist s e places).mergeSort (waypointLE dist s e profile)

/-- The selected waypoints: slice(0, min(5, length)) of the sorted list. -/
def selectedWaypoints (dist : DistFn) (s e : Point) (places : List Place)
    (profile : String) : List Place :=
  let sorted := sortedWaypoints dist s e places profile
  sorted.take (min 5 sorted.length)

/-- The forEach scan of the greedy loop: starting from a best pair
(closestIndex, closestDistance) - with none standing for the initial
Infinity - fold over the remaining waypoint distances, replacing the best
pair on a strictly smaller distance. -/
def scanClosest (d : Place → ℚ) : List Place → ℕ → ℕ × Option ℚ → ℕ × Option ℚ
  | [], _, best => best
  | w :: ws, i, (bi, bd) =>
    let best :=
      match bd with
      | none => (i, some (d w))
      | some v => if d w < v then (i, some (d w)) else (bi, some v)
    scanClosest d ws (i + 1) best

/-- Index of the closest remaining waypoint (first index attaining the
minimum distance), as computed by the forEach scan with closestIndex
initialized to 0 and closestDistance to Infinity. -/
def findClosestIdx (d : Place → ℚ) (ws : List Place) : ℕ :=
  (scanClosest d ws 0 (0, none)).1

/-- The greedy while-loop of generateAccessibleRoute, with the loop
recursion measured by the length of the remaining list (the fuel argument
n; the loop removes exactly one waypoint per iteration, so starting the
fuel at the list length reproduces the while-loop exactly): repeatedly
append the coordinates of the closest remaining waypoint and remove it. -/
def greedyGo (dist : DistFn) : ℕ → Point → List Place → List Point
  | 0, _, _ => []
  | _, _, [] => []
  | n + 1, cur, w :: ws =>
    let rem := w :: ws
    let i := findClosestIdx (fun p => dist cur (p.lat, p.lng)) rem
    let nxt := rem.getD i w
    (nxt.lat, nxt.lng) :: greedyGo dist n (nxt.lat, nxt.lng) (rem.eraseIdx i)

/-- The greedy ordering of the selected waypoints. -/
def greedyOrder (dist : DistFn) (cur : Point) (rem : List Place) : List Point :=
  greedyGo dist rem.length cur rem

/-- The four interpolated points that the smoothing loop inserts between
two consecutive vertices p and q, at ratios 1/5 .. 4/5, each perturbed by
(Math.random() - 0.5) * 0.0005 in latitude and in longitude; base is the
index in the random stream of the first draw of this segment (the loop
draws latitude jitter then longitude jitter for each inserted point). -/
def smoothSegment (rng : ℕ → ℚ) (base : ℕ) (p q : Point) : List Point :=
  (List.range 4).map fun (j : ℕ) =>
    let t : ℚ := ((j : ℚ) + 1) / 5
    let jitterLat := (rng (base + 2 * j) - 1 / 2) * (5 / 10000)
    let jitterLng := (rng (base + 2 * j + 1) - 1 / 2) * (5 / 10000)
    (p.1 + (q.1 - p.1) * t + jitterLat, p.2 + (q.2 - p.2) * t + jitterLng)

/-- The smoothing loop over the segments after the first vertex: for the
i-th segment from p to q, push the four jittered interpolants and then q
itself, verbatim (8 random draws per segment). -/
def smoothAux (rng : ℕ → ℚ) : ℕ → Point → List Point → List Point
  | _, _, [] => []
  | i, p, q :: rest => smoothSegment rng (8 * i) p q ++ q :: smoothAux rng (i + 1) q rest

/-- The smoothed route: first vertex verbatim, then the per-segment
interpolants and endpoints. -/
def smoothRoute (rng : ℕ → ℚ) : List Point → List Point
  | [] => []
  | p :: rest => p :: smoothAux rng 0 p rest

/-- The route assembler generateAccessibleRoute: filter and sort the
candidates, take the top five, order them greedily from the start, build
[start, ...waypoints, end] and smooth it. -/
def generateAccessibleRoute (dist : DistFn) (s e : Point) (places : List Place)
    (profile : String) (rng : ℕ → ℚ) : List Point :=
  smoothRoute rng
    (s :: (greedyOrder dist s (selectedWaypoints dist s e places profile) ++ [e]))

/-- The eight compass names of generateRouteSteps, in source order. -/
def compassNames : List String :=
  ["north", "northeast", "east", "southeast", "south", "southwest", "west",
   "northwest"]

/-- Rounded meters below one kilometer, otherwise kilometers with one
decimal digit: formatDistance of the source (toFixed1 renders the one
decimal digit the way Number.prototype.toFixed(1) does for the magnitudes
produced here). -/
def toFixed1 (q : ℚ) : String :=
  let n := round (q * 10)
  toString (n / 10) ++ "." ++ toString (n % 10)

/-- Distance formatter of the source. -/
def formatDistance (meters : ℚ) : String :=
  if meters < 1000 then toString (round meters) ++ " m"
  else toFixed1 (meters / 1000) ++ " km"

/-- Duration formatter of the source: seconds rounded to whole minutes,
shown as minutes below one hour and as hours and minutes from one hour on. -/
def formatDuration (seconds : ℚ) : String :=
  let minutes := round (seconds / 60)
  if minutes < 60 then toString minutes ++ " min"
  else toString (minutes / 60) ++ " hr " ++ toString (minutes % 60) ++ " min"

/-- Wrapped absolute difference of two bearings: getDirectionDifference. -/
def getDirectionDifference (dir1 dir2 : ℚ) : ℚ :=
  let diff := |dir1 - dir2|
  if diff > 180 then 360 - diff else diff

/-- Turn label buckets of getTurnDirection. -/
def getTurnDirection (angle : ℚ) : String :=
  if angle < 45 then "slightly right"
  else if angle < 90 then "right"
  else if angle < 135 then "sharp right"
  else if angle < 225 then "around"
  else if angle < 270 then "sharp left"
  else if angle < 315 then "left"
  else "slightly left"

/-- First place within maxDistance of the point: findNearbyPlace. -/
def findNearbyPlace (dist : DistFn) (pt : Point) (places : List Place)
    (maxDistance : ℚ) : Option Place :=
  places.find? fun pl => decide (dist pt (pl.lat, pl.lng) ≤ maxDistance)

/-- A significant point recorded by the scan of generateRouteSteps: a turn
with its label, or a nearby place, at a polyline index (the point field of
the source record is recoverable as route[index] and is never read). -/
inductive Marker where
  | turn (index : ℕ) (direction : String)
  | place (index : ℕ) (pl : Place)
  deriving DecidableEq

/-- Polyline index of a marker. -/
def Marker.index : Marker → ℕ
  | .turn i _ => i
  | .place i _ => i

/-- The stride indices of the scan loop: i = 5, 10, 15, ... while
i < route length - 5 (truncated subtraction matches the JavaScript loop,
which does not run at all for short routes). -/
def strideIndices (len : ℕ) : List ℕ :=
  (List.range len).filter fun i => decide (5 ≤ i) && decide (i % 5 = 0)
    && decide (i < len - 5)

/-- The scan loop body of generateRouteSteps over the stride indices,
carrying lastDirection: emit a turn marker when the wrapped bearing change
exceeds 30 degrees (updating lastDirection), and, independently, a place
marker when some candidate lies within 100 meters of the stride vertex. -/
def scanMarkersGo (dist dirFn : DistFn) (route : List Point)
    (places : List Place) : List ℕ → ℚ → List Marker
  | [], _ => []
  | i :: is, lastDir =>
    let nextIdx := if i + 5 ≥ route.length then route.length - 1 else i + 5
    let cur := dirFn (route.getD i (0, 0)) (route.getD nextIdx (0, 0))
    let change := getDirectionDifference lastDir cur
    let turnMarkers : List Marker :=
      if change > 30 then [Marker.turn i (getTurnDirection change)] else []
    let newLast := if change > 30 then cur else lastDir
    let placeMarkers : List Marker :=
      match findNearbyPlace dist (route.getD i (0, 0)) places 100 with
      | some pl => [Marker.place i pl]
      | none => []
    turnMarkers ++ placeMarkers ++ scanMarkersGo dist dirFn route places is newLast

/-- All significant points of a polyline, with lastDirection initialized
to the bearing from vertex 0 to vertex min(5, len - 1). -/
def scanMarkers (dist dirFn : DistFn) (route : List Point)
    (places : List Place) : List Marker :=
  scanMarkersGo dist dirFn route places (strideIndices route.length)
    (dirFn (route.getD 0 (0, 0)) (route.getD (min 5 (route.length - 1)) (0, 0)))

/-- The narration step produced for one marker, covering a polyline span
of length spanDistance (walking speed 1.4 m/s). -/
def stepOfMarker (spanDistance : ℚ) : Marker → RouteStep
  | .turn _ dir =>
    { instruction := "Turn " ++ dir ++ " and continue straight"
      distance := formatDistance spanDistance
      duration := formatDuration (spanDistance / (7 / 5))
      isAccessible := true }
  | .place _ pl =>
    { instruction := "Continue past " ++ pl.name ++ ". Note: "
        ++ String.intercalate ", " pl.accessibilityFeatures ++ " available."
      distance := formatDistance spanDistance
      duration := formatDuration (spanDistance / (7 / 5))
      isAccessible := decide (pl.accessibilityFeatures.length > 0) }

/-- The per-marker emission loop of generateRouteSteps, threading
lastIndex: each step covers route.slice(lastIndex, marker index). -/
def markerSteps (dist : DistFn) (route : List Point) :
    ℕ → List Marker → List RouteStep
  | _, [] => []
  | lastIndex, m :: ms =>
    let span := calculateTotalDistance dist
      ((route.drop lastIndex).take (m.index - lastIndex))
    stepOfMarker span m :: markerSteps dist route m.index ms

/-- Value of lastIndex after the emission loop: the index of the last
marker, or the initial 0 when there is none. -/
def lastMarkerIndex : List Marker → ℕ → ℕ
  | [], acc => acc
  | m :: ms, _ => lastMarkerIndex ms m.index

/-- The step narrator generateRouteSteps: a random initial heading step
covering the span from vertex 0 to vertex min(5, len - 1), one step per
significant point, and a final arrival step covering the remaining span.
The single Math.random() draw of the narrator is rng 0. -/
def generateRouteSteps (dist dirFn : DistFn) (route : List Point)
    (places : List Place) (rng : ℕ → ℚ) : List RouteStep :=
  let initialSpan := dist (route.getD 0 (0, 0))
    (route.getD (min 5 (route.length - 1)) (0, 0))
  let initial : RouteStep :=
    { instruction := "Head "
        ++ compassNames.getD (Int.toNat ⌊rng 0 * 8⌋) "undefined"
        ++ " on your route"
      distance := formatDistance initialSpan
      duration := formatDuration (initialSpan / (7 / 5))
      isAccessible := true }
  let markers := scanMarkers dist dirFn route places
  let finalSpan := calculateTotalDistance dist
    (route.drop (lastMarkerIndex markers 0))
  let finalStep : RouteStep :=
    { instruction := "Arrive at your destination"
      distance := formatDistance finalSpan
      duration := formatDuration (finalSpan / (7 / 5))
      isAccessible := true }
  initial :: (markerSteps dist route 0 markers ++ [finalStep])

/-- The synchronous core of fetchRoute: assemble the route, total its
distance, derive the duration at 1.4 m/s, and narrate the steps.  The two
random streams model the draws that the assembler and the narrator take
from Math.random(). -/
def fetchRouteCore (dist dirFn : DistFn) (s e : Point) (places : List Place)
    (profile : String) (jitterRng stepRng : ℕ → ℚ) : RouteResult :=
  let route := generateAccessibleRoute dist s e places profile jitterRng
  let distance := calculateTotalDistance dist route
  { route := route
    distance := distance
    duration := distance / (7 / 5)
    steps := generateRouteSteps dist dirFn route places stepRng }

/-- Two-argument arctangent over the reals, the mathematical function
computed by Math.atan2(y, x). -/
noncomputable def atan2 (y x : ℝ) : ℝ :=
  if 0 < x then Real.arctan (y / x)
  else if x < 0 ∧ 0 ≤ y then Real.arctan (y / x) + Real.pi
  else if x < 0 ∧ y < 0 then Real.arctan (y / x) - Real.pi
  else if x = 0 ∧ 0 < y then Real.pi / 2
  else if x = 0 ∧ y < 0 then -(Real.pi / 2)
  else 0

/-- The Haversine helper calculateDistance of the source, over the real
numbers: great-circle distance in meters with Earth radius 6371e3 m. -/
noncomputable def calculateDistance (point1 point2 : ℝ × ℝ) : ℝ :=
  let R : ℝ := 6371000
  let φ₁ := point1.1 * Real.pi / 180
  let φ₂ := point2.1 * Real.pi / 180
  let Δφ := (point2.1 - point1.1) * Real.pi / 180
  let Δlng := (point2.2 - point1.2) * Real.pi / 180
  let a := Real.sin (Δφ / 2) * Real.sin (Δφ / 2)
    + Real.cos φ₁ * Real.cos φ₂ * Real.sin (Δlng / 2) * Real.sin (Δlng / 2)
  let c := 2 * atan2 (Real.sqrt a) (Real.sqrt (1 - a))
  R * c

/-- Greedy nearest-neighbor ordering as the specification words it:
repeatedly pick, from the remaining unplaced waypoints, the (first) one at
minimum distance from the current point, append its coordinates, advance
the current point to it and remove it from the remaining list.  Written
independently of the loop in the source, to be compared with greedyOrder. -/
def specGreedy (dist : DistFn) (cur : Point) (rem : List Place) : List Point :=
  match hfind : rem.find? (fun p => rem.all fun q =>
      decide (dist cur (p.lat, p.lng) ≤ dist cur (q.lat, q.lng))) with
  | none => []
  | some p => (p.lat, p.lng) :: specGreedy dist (p.lat, p.lng) (rem.erase p)
termination_by rem.length
decreasing_by
  have hmem : p ∈ rem := List.mem_of_find?_eq_some hfind
  have hlen := List.length_erase_of_mem hmem
  have hpos : 0 < rem.length := List.length_pos.mpr (List.ne_nil_of_mem hmem)
  omega

/-- The ranking relation as the claim words it: more accessibility-feature
tags first; on equal counts, for the wheelchair profile a candidate with a
ramp feature precedes one without; remaining ties are ordered by smaller
detour distance. -/
def rankLe (dist : DistFn) (s e : Point) (profile : String) (a b : Place) :
    Prop :=
  b.accessibilityFeatures.length < a.accessibilityFeatures.length ∨
  (a.accessibilityFeatures.length = b.accessibilityFeatures.length ∧
    ((profile = "wheelchair" ∧ hasRampFeature a = true ∧ hasRampFeature b = false) ∨
     ((profile ≠ "wheelchair" ∨ hasRampFeature a = hasRampFeature b) ∧
      detourDistance dist s e a ≤ detourDistance dist s e b)))

/-- Reference recursion for the forEach scan of the greedy loop: the
index of the first minimum of d over the list, together with that minimum
(none for the empty list).  Used to characterize scanClosest. -/
def firstMinIdx (d : Place → ℚ) : List Place → ℕ × Option ℚ
  | [] => (0, none)
  | w :: ws =>
    match firstMinIdx d ws with
    | (_, none) => (0, some (d w))
    | (j, some m) => if m < d w then (j + 1, some m) else (0, some (d w))

/- ------------------------------------------------------------------
Helper lemmas
------------------------------------------------------------------ -/

theorem smoothAux_getLast? (rng : ℕ → ℚ) :
    ∀ (rest : List Point) (i : ℕ) (p : Point), rest ≠ [] →
      (smoothAux rng i p rest).getLast? = rest.getLast? := by
  intro rest
  induction rest with
  | nil => intro _ _ h; exact absurd rfl h
  | cons q rest ih =>
    intro i p _
    cases rest with
    | nil =>
      show (smoothSegment rng (8 * i) p q ++ q :: smoothAux rng (i + 1) q []).getLast?
        = _
      simp [smoothAux, List.getLast?_append]
    | cons r rest' =>
      have htail := ih (i + 1) q (by simp)
      obtain ⟨v, hv⟩ : ∃ v, (r :: rest').getLast? = some v := by
        have := List.getLast?_isSome.mpr (show r :: rest' ≠ [] by simp)
        exact Option.isSome_iff_exists.mp this
      show (smoothSegment rng (8 * i) p q ++ q :: smoothAux rng (i + 1) q (r :: rest')).getLast?
        = _
      have h1 : (q :: smoothAux rng (i + 1) q (r :: rest')).getLast? = some v := by
        rw [show q :: smoothAux rng (i + 1) q (r :: rest')
            = [q] ++ smoothAux rng (i + 1) q (r :: rest') from rfl,
          List.getLast?_append, htail, hv]
        rfl
      rw [List.getLast?_append, h1, List.getLast?_cons_cons, hv]
      rfl

theorem smoothRoute_head? (rng : ℕ → ℚ) (p : Point) (rest : List Point) :
    (smoothRoute rng (p :: rest)).head? = some p := rfl

theorem smoothRoute_getLast? (rng : ℕ → ℚ) (p : Point) (rest : List Point)
    (h : rest ≠ []) :
    (smoothRoute rng (p :: rest)).getLast? = rest.getLast? := by
  obtain ⟨v, hv⟩ : ∃ v, rest.getLast? = some v :=
    Option.isSome_iff_exists.mp (List.getLast?_isSome.mpr h)
  show (p :: smoothAux rng 0 p rest).getLast? = rest.getLast?
  rw [show p :: smoothAux rng 0 p rest = [p] ++ smoothAux rng 0 p rest from rfl,
    List.getLast?_append, smoothAux_getLast? rng rest 0 p h, hv]
  rfl

/- ------------------------------------------------------------------
C1: endpoints of the assembled polyline
------------------------------------------------------------------ -/

/-- C1: for every origin, destination, candidate list, profile and random
stream, the polyline returned by generateAccessibleRoute starts with the
origin and ends with the destination, both verbatim, even after the
jittered smoothing points are inserted. -/
theorem c1_route_endpoints (dist : DistFn) (s e : Point) (places : List Place)
    (profile : String) (rng : ℕ → ℚ) :
    (generateAccessibleRoute dist s e places profile rng).head? = some s ∧
    (generateAccessibleRoute dist s e places profile rng).getLast? = some e := by
  unfold generateAccessibleRoute
  refine ⟨smoothRoute_head? rng s _, ?_⟩
  rw [smoothRoute_getLast? rng s _ (by simp), List.getLast?_concat]

/- ------------------------------------------------------------------
C3: determinism of the route-generation core
------------------------------------------------------------------ -/

/-- C3: with the randomness sources fixed, two invocations of the core
with identical origin, destination, POI list and profile produce identical
RouteResult bundles (polyline, distance, duration and step sequence). -/
theorem c3_deterministic (dist dirFn : DistFn) (s₁ e₁ : Point)
    (places₁ : List Place) (profile₁ : String) (jrng₁ srng₁ : ℕ → ℚ)
    (s₂ e₂ : Point) (places₂ : List Place) (profile₂ : String)
    (jrng₂ srng₂ : ℕ → ℚ) (hs : s₁ = s₂) (he : e₁ = e₂)
    (hpl : places₁ = places₂) (hpr : profile₁ = profile₂)
    (hj : jrng₁ = jrng₂) (hr : srng₁ = srng₂) :
    fetchRouteCore dist dirFn s₁ e₁ places₁ profile₁ jrng₁ srng₁
      = fetchRouteCore dist dirFn s₂ e₂ places₂ profile₂ jrng₂ srng₂ := by
  subst hs he hpl hpr hj hr
  rfl

/-- Witness for C3 at a concrete input. -/
theorem c3_deterministic_witness :
    fetchRouteCore (fun _ _ => 0) (fun _ _ => 0) (0, 0) (1, 1) []
        "wheelchair" (fun _ => 0) (fun _ => 0)
      = fetchRouteCore (fun _ _ => 0) (fun _ _ => 0) (0, 0) (1, 1) []
        "wheelchair" (fun _ => 0) (fun _ => 0) :=
  c3_deterministic (fun _ _ => 0) (fun _ _ => 0) (0, 0) (1, 1) []
    "wheelchair" (fun _ => 0) (fun _ => 0) (0, 0) (1, 1) []
    "wheelchair" (fun _ => 0) (fun _ => 0) rfl rfl rfl rfl rfl rfl

/- ------------------------------------------------------------------
C8: display formatters
------------------------------------------------------------------ -/

/-- C8: the distance formatter shows rounded meters with a " m" suffix
below 1000 m and kilometers to one decimal with a " km" suffix otherwise
(950 to "950 m", 1500 to "1.5 km"); the duration formatter rounds seconds
to whole minutes and shows "n min" under 60 minutes and "h hr m min"
otherwise (45 s to "1 min", 3660 s to "1 hr 1 min"). -/
theorem c8_formatters :
    formatDistance 950 = "950 m" ∧ formatDistance 1500 = "1.5 km" ∧
    formatDuration 45 = "1 min" ∧ formatDuration 3660 = "1 hr 1 min" ∧
    (∀ q : ℚ, q < 1000 → formatDistance q = toString (round q) ++ " m") ∧
    (∀ q : ℚ, ¬q < 1000 → formatDistance q = toFixed1 (q / 1000) ++ " km") ∧
    (∀ q : ℚ, round (q / 60) < 60 →
      formatDuration q = toString (round (q / 60)) ++ " min") ∧
    (∀ q : ℚ, ¬round (q / 60) < 60 →
      formatDuration q = toString (round (q / 60) / 60) ++ " hr "
        ++ toString (round (q / 60) % 60) ++ " min") := by
  refine ⟨?_, ?_, ?_, ?_, ?_, ?_, ?_, ?_⟩
  · have h : round (950 : ℚ) = 950 := by norm_num [round_eq]
    simp [formatDistance, h, show (950 : ℚ) < 1000 by norm_num]
    rfl
  · have h : ¬(1500 : ℚ) < 1000 := by norm_num
    have h2 : round ((1500 : ℚ) / 1000 * 10) = 15 := by norm_num [round_eq]
    simp [formatDistance, toFixed1, h, h2]
    rfl
  · have h : round ((45 : ℚ) / 60) = 1 := by norm_num [round_eq]
    simp [formatDuration, h]
    rfl
  · have h : round ((3660 : ℚ) / 60) = 61 := by norm_num [round_eq]
    simp [formatDuration, h]
    rfl
  · intro q hq; simp [formatDistance, hq]
  · intro q hq; simp [formatDistance, hq]
  · intro q hq; simp [formatDuration, hq]
  · intro q hq; simp [formatDuration, hq]

/-- Witness for C8: the conditional formatting rules applied at 950 m,
1500 m, 45 s and 3660 s. -/
theorem c8_formatters_witness :
    formatDistance 950 = toString (round (950 : ℚ)) ++ " m" ∧
    formatDistance 1500 = toFixed1 ((1500 : ℚ) / 1000) ++ " km" ∧
    formatDuration 45 = toString (round ((45 : ℚ) / 60)) ++ " min" ∧
    formatDuration 3660 = toString (round ((3660 : ℚ) / 60) / 60) ++ " hr "
      ++ toString (round ((3660 : ℚ) / 60) % 60) ++ " min" :=
  ⟨c8_formatters.2.2.2.2.1 950 (by norm_num),
   c8_formatters.2.2.2.2.2.1 1500 (by norm_num),
   c8_formatters.2.2.2.2.2.2.1 45 (by norm_num [round_eq]),
   c8_formatters.2.2.2.2.2.2.2 3660 (by norm_num [round_eq])⟩

/- ------------------------------------------------------------------
C7 and C9: shape of the narrated steps, totality of the core
------------------------------------------------------------------ -/

theorem strideIndices_eq_nil (len : ℕ) (h : len ≤ 10) : strideIndices len = [] := by
  unfold strideIndices
  rw [List.filter_eq_nil_iff]
  intro a ha
  rw [List.mem_range] at ha
  simp only [Bool.and_eq_true, decide_eq_true_eq, not_and]
  omega

/-- C7: for every polyline with at least 2 vertices, the narrated steps
are non-empty, always end with the arrival instruction, always include
both the initial and the final step, and a polyline shorter than 11
vertices produces exactly those two steps (the stride scan is empty). -/
theorem c7_steps_nonempty (dist dirFn : DistFn) (route : List Point)
    (places : List Place) (rng : ℕ → ℚ) (h : 2 ≤ route.length) :
    generateRouteSteps dist dirFn route places rng ≠ [] ∧
    (generateRouteSteps dist dirFn route places rng).getLast?.map
      RouteStep.instruction = some "Arrive at your destination" ∧
    2 ≤ (generateRouteSteps dist dirFn route places rng).length ∧
    (route.length ≤ 10 →
      (generateRouteSteps dist dirFn route places rng).length = 2) := by
  refine ⟨by simp [generateRouteSteps], ?_, ?_, ?_⟩
  · show ((_ :: (_ ++ [_])).getLast?.map _) = _
    rw [← List.cons_append, List.getLast?_concat]
    rfl
  · show 2 ≤ (_ :: (_ ++ [_])).length
    simp
  · intro hshort
    show (_ :: (markerSteps dist route 0 (scanMarkers dist dirFn route places)
      ++ [_])).length = 2
    rw [show scanMarkers dist dirFn route places
        = scanMarkersGo dist dirFn route places (strideIndices route.length) _
      from rfl, strideIndices_eq_nil route.length hshort]
    rfl

/-- Witness for C7 at a two-vertex polyline with no candidates. -/
theorem c7_steps_nonempty_witness :
    generateRouteSteps (fun _ _ => 0) (fun _ _ => 0)
      [((0 : ℚ), (0 : ℚ)), ((1 : ℚ), (0 : ℚ))] [] (fun _ => 0) ≠ [] ∧
    (generateRouteSteps (fun _ _ => 0) (fun _ _ => 0)
      [((0 : ℚ), (0 : ℚ)), ((1 : ℚ), (0 : ℚ))] [] (fun _ => 0)).getLast?.map
      RouteStep.instruction = some "Arrive at your destination" ∧
    (generateRouteSteps (fun _ _ => 0) (fun _ _ => 0)
      [((0 : ℚ), (0 : ℚ)), ((1 : ℚ), (0 : ℚ))] [] (fun _ => 0)).length = 2 :=
  ⟨(c7_steps_nonempty (fun _ _ => 0) (fun _ _ => 0)
      [((0 : ℚ), (0 : ℚ)), ((1 : ℚ), (0 : ℚ))] [] (fun _ => 0) (by decide)).1,
   (c7_steps_nonempty (fun _ _ => 0) (fun _ _ => 0)
      [((0 : ℚ), (0 : ℚ)), ((1 : ℚ), (0 : ℚ))] [] (fun _ => 0) (by decide)).2.1,
   (c7_steps_nonempty (fun _ _ => 0) (fun _ _ => 0)
      [((0 : ℚ), (0 : ℚ)), ((1 : ℚ), (0 : ℚ))] [] (fun _ => 0)
      (by decide)).2.2.2 (by decide)⟩

/-- C9: the whole core is total: on every well-typed input - the empty
candidate list and coincident origin and destination included - it returns
a well-formed bundle: the polyline runs from origin to destination, the
step list always has the initial and the arrival step, and the duration is
the distance at walking speed 1.4 m/s.  Totality itself is structural:
every operation is a total function of its inputs. -/
theorem c9_totality (dist dirFn : DistFn) (s e : Point) (places : List Place)
    (profile : String) (jrng srng : ℕ → ℚ) :
    (fetchRouteCore dist dirFn s e places profile jrng srng).route.head?
      = some s ∧
    (fetchRouteCore dist dirFn s e places profile jrng srng).route.getLast?
      = some e ∧
    2 ≤ (fetchRouteCore dist dirFn s e places profile jrng srng).steps.length ∧
    (fetchRouteCore dist dirFn s e places profile jrng srng).steps ≠ [] ∧
    (fetchRouteCore dist dirFn s e places profile jrng srng).duration
      = (fetchRouteCore dist dirFn s e places profile jrng srng).distance
        / (7 / 5) := by
  refine ⟨?_, ?_, ?_, ?_, rfl⟩
  · exact smoothRoute_head? jrng s _
  · show (smoothRoute jrng (s :: (_ ++ [e]))).getLast? = some e
    rw [smoothRoute_getLast? jrng s _ (by simp), List.getLast?_concat]
  · show 2 ≤ (_ :: (_ ++ [_])).length
    simp
  · show (_ :: (_ ++ [_])) ≠ []
    simp

/- ------------------------------------------------------------------
C4: the initial step of the narrator
------------------------------------------------------------------ -/

/-- C4, counterexample to the claim as stated: on the very same two-vertex
polyline heading due north, the narrator emits "Head north on your route"
under one random draw and "Head south on your route" under another, so the
compass word of the initial step is not the one computed from the bearing
between vertex 0 and vertex min(5, len - 1) - it is not a function of the
polyline at all. -/
theorem c4_counterexample :
    (generateRouteSteps (fun _ _ => 0) (fun _ _ => 0)
        [((0 : ℚ), (0 : ℚ)), ((1 : ℚ), (0 : ℚ))] [] (fun _ => 0)).head?.map
      RouteStep.instruction = some "Head north on your route" ∧
    (generateRouteSteps (fun _ _ => 0) (fun _ _ => 0)
        [((0 : ℚ), (0 : ℚ)), ((1 : ℚ), (0 : ℚ))] [] (fun _ => 1 / 2)).head?.map
      RouteStep.instruction = some "Head south on your route" := by
  constructor
  · have h1 : Int.toNat ⌊(0 : ℚ) * 8⌋ = 0 := by norm_num
    show some ("Head " ++ compassNames.getD (Int.toNat ⌊(0 : ℚ) * 8⌋) "undefined"
      ++ " on your route") = _
    rw [h1]
    rfl
  · have h1 : Int.toNat ⌊(1 / 2 : ℚ) * 8⌋ = 4 := by norm_num; rfl
    show some ("Head " ++ compassNames.getD (Int.toNat ⌊(1 / 2 : ℚ) * 8⌋) "undefined"
      ++ " on your route") = _
    rw [h1]
    rfl

/-- C4 as amended: the first narrated step is "Head (d) on your route"
where d is the compass name selected by the random draw (index
floor(rng 0 times 8) into the eight compass names), not by the bearing;
its distance and duration do cover the span from vertex 0 to vertex
min(5, len - 1); and the instruction text of the first step does not
depend on the polyline or the candidate list at all. -/
theorem c4_initial_step (dist dirFn : DistFn) (route : List Point)
    (places : List Place) (rng : ℕ → ℚ) (h : 2 ≤ route.length) :
    (generateRouteSteps dist dirFn route places rng).head? = some
      { instruction := "Head "
          ++ compassNames.getD (Int.toNat ⌊rng 0 * 8⌋) "undefined"
          ++ " on your route"
        distance := formatDistance (dist (route.getD 0 (0, 0))
          (route.getD (min 5 (route.length - 1)) (0, 0)))
        duration := formatDuration (dist (route.getD 0 (0, 0))
          (route.getD (min 5 (route.length - 1)) (0, 0)) / (7 / 5))
        isAccessible := true } ∧
    ∀ (route' : List Point) (places' : List Place),
      (generateRouteSteps dist dirFn route places rng).head?.map
        RouteStep.instruction
      = (generateRouteSteps dist dirFn route' places' rng).head?.map
        RouteStep.instruction := by
  exact ⟨rfl, fun _ _ => rfl⟩

/-- Witness for C4 as amended, at a concrete polyline and random draw. -/
theorem c4_initial_step_witness :
    (generateRouteSteps (fun _ _ => 0) (fun _ _ => 0)
        [((0 : ℚ), (0 : ℚ)), ((1 : ℚ), (0 : ℚ))] [] (fun _ => 0)).head? = some
      { instruction := "Head "
          ++ compassNames.getD (Int.toNat ⌊(fun _ : ℕ => (0 : ℚ)) 0 * 8⌋)
            "undefined"
          ++ " on your route"
        distance := formatDistance ((fun _ _ => (0 : ℚ))
          (([((0 : ℚ), (0 : ℚ)), ((1 : ℚ), (0 : ℚ))]).getD 0 (0, 0))
          (([((0 : ℚ), (0 : ℚ)), ((1 : ℚ), (0 : ℚ))]).getD
            (min 5 (([((0 : ℚ), (0 : ℚ)), ((1 : ℚ), (0 : ℚ))]).length - 1))
            (0, 0)))
        duration := formatDuration ((fun _ _ => (0 : ℚ))
          (([((0 : ℚ), (0 : ℚ)), ((1 : ℚ), (0 : ℚ))]).getD 0 (0, 0))
          (([((0 : ℚ), (0 : ℚ)), ((1 : ℚ), (0 : ℚ))]).getD
            (min 5 (([((0 : ℚ), (0 : ℚ)), ((1 : ℚ), (0 : ℚ))]).length - 1))
            (0, 0)) / (7 / 5))
        isAccessible := true } :=
  (c4_initial_step (fun _ _ => 0) (fun _ _ => 0)
    [((0 : ℚ), (0 : ℚ)), ((1 : ℚ), (0 : ℚ))] [] (fun _ => 0) (by decide)).1

/- ------------------------------------------------------------------
C10: only right-turn and around labels are reachable
------------------------------------------------------------------ -/

theorem getDirectionDifference_le (dir1 dir2 : ℚ) :
    getDirectionDifference dir1 dir2 ≤ 180 := by
  simp only [getDirectionDifference]
  split_ifs with h
  · linarith
  · linarith [not_lt.mp h]

theorem getDirectionDifference_nonneg (dir1 dir2 : ℚ) (h1 : 0 ≤ dir1)
    (h2 : dir1 ≤ 360) (h3 : 0 ≤ dir2) (h4 : dir2 ≤ 360) :
    0 ≤ getDirectionDifference dir1 dir2 := by
  simp only [getDirectionDifference]
  have habs : |dir1 - dir2| ≤ 360 := by
    rw [abs_le]
    constructor <;> linarith
  split_ifs with h
  · linarith
  · exact abs_nonneg _

theorem getTurnDirection_mem (angle : ℚ) (hlo : 30 < angle) (hhi : angle ≤ 180) :
    getTurnDirection angle
      ∈ (["slightly right", "right", "sharp right", "around"] : List String) := by
  unfold getTurnDirection
  split_ifs with h1 h2 h3 h4 h5 h6 <;> first | (exfalso; linarith) | simp

theorem mem_ite_singleton {c : Prop} [Decidable c] {m x : Marker}
    (h : m ∈ (if c then [x] else ([] : List Marker))) : c ∧ m = x := by
  split at h
  · exact ⟨by assumption, List.mem_singleton.mp h⟩
  · simp at h

theorem scanMarkersGo_turn_mem (dist dirFn : DistFn) (route : List Point)
    (places : List Place) :
    ∀ (idxs : List ℕ) (lastDir : ℚ) (i : ℕ) (dir : String),
      Marker.turn i dir ∈ scanMarkersGo dist dirFn route places idxs lastDir →
      dir ∈ (["slightly right", "right", "sharp right", "around"] : List String) := by
  intro idxs
  induction idxs with
  | nil => intro lastDir i dir h; simp [scanMarkersGo] at h
  | cons k ks ih =>
    intro lastDir i dir h
    have hunf : scanMarkersGo dist dirFn route places (k :: ks) lastDir
        = ((if getDirectionDifference lastDir (dirFn (route.getD k (0, 0))
              (route.getD (if k + 5 ≥ route.length then route.length - 1 else k + 5)
                (0, 0))) > 30
            then [Marker.turn k (getTurnDirection (getDirectionDifference lastDir
              (dirFn (route.getD k (0, 0))
                (route.getD (if k + 5 ≥ route.length then route.length - 1 else k + 5)
                  (0, 0)))))]
            else [])
          ++ (match findNearbyPlace dist (route.getD k (0, 0)) places 100 with
              | some pl => [Marker.place k pl]
              | none => []))
          ++ scanMarkersGo dist dirFn route places ks
            (if getDirectionDifference lastDir (dirFn (route.getD k (0, 0))
                (route.getD
                  (if k + 5 ≥ route.length then route.length - 1 else k + 5)
                  (0, 0))) > 30
              then dirFn (route.getD k (0, 0))
                (route.getD
                  (if k + 5 ≥ route.length then route.length - 1 else k + 5)
                  (0, 0))
              else lastDir) := by simp only [scanMarkersGo]
    rw [hunf] at h
    rcases List.mem_append.mp h with h | h
    · rcases List.mem_append.mp h with h | h
      · obtain ⟨hc, heq⟩ := mem_ite_singleton h
        injection heq with h1 h2
        subst h2
        exact getTurnDirection_mem _ hc (getDirectionDifference_le _ _)
      · rcases hfd : findNearbyPlace dist (route.getD k (0, 0)) places 100 with _ | pl
        · rw [hfd] at h
          simp at h
        · rw [hfd] at h
          have := List.mem_singleton.mp h
          simp at this
    · exact ih _ i dir h

/-- C10: every turn marker the narrator scan emits carries one of the four
labels "slightly right", "right", "sharp right", "around" - the left
labels are unreachable, because the wrapped angular difference never
exceeds 180 degrees (and is nonnegative for bearings in [0, 360]), a turn
needs a difference above 30 degrees, and the buckets at 225 degrees and
above are therefore never hit. -/
theorem c10_turn_labels (dist dirFn : DistFn) (route : List Point)
    (places : List Place) :
    (∀ (i : ℕ) (dir : String),
      Marker.turn i dir ∈ scanMarkers dist dirFn route places →
      dir ∈ (["slightly right", "right", "sharp right", "around"] : List String)) ∧
    (∀ dir1 dir2 : ℚ, getDirectionDifference dir1 dir2 ≤ 180) ∧
    (∀ dir1 dir2 : ℚ, 0 ≤ dir1 → dir1 ≤ 360 → 0 ≤ dir2 → dir2 ≤ 360 →
      0 ≤ getDirectionDifference dir1 dir2) := by
  refine ⟨?_, fun d1 d2 => getDirectionDifference_le d1 d2,
    fun d1 d2 h1 h2 h3 h4 => getDirectionDifference_nonneg d1 d2 h1 h2 h3 h4⟩
  intro i dir h
  exact scanMarkersGo_turn_mem dist dirFn route places _ _ i dir h

/-- Witness for C10: a concrete eleven-vertex polyline whose scan emits
one turn marker, labelled "sharp right". -/
theorem c10_turn_labels_witness :
    Marker.turn 5 "sharp right" ∈ scanMarkers (fun _ _ => (0 : ℚ))
      (fun p _ => if p.1 = 5 then 90 else 0)
      [((0 : ℚ), (0 : ℚ)), (1, 0), (2, 0), (3, 0), (4, 0), (5, 0), (6, 0),
        (7, 0), (8, 0), (9, 0), (10, 0)] [] ∧
    "sharp right"
      ∈ (["slightly right", "right", "sharp right", "around"] : List String) := by
  have hstr : strideIndices (11 : ℕ) = [5] := by decide
  have hmem : Marker.turn 5 "sharp right" ∈ scanMarkers (fun _ _ => (0 : ℚ))
      (fun p _ => if p.1 = 5 then 90 else 0)
      [((0 : ℚ), (0 : ℚ)), (1, 0), (2, 0), (3, 0), (4, 0), (5, 0), (6, 0),
        (7, 0), (8, 0), (9, 0), (10, 0)] [] := by
    show Marker.turn 5 "sharp right" ∈ scanMarkersGo _ _ _ _
      (strideIndices (11 : ℕ)) _
    rw [hstr]
    norm_num [scanMarkersGo, getDirectionDifference, getTurnDirection,
      findNearbyPlace, List.getD]
  exact ⟨hmem, (c10_turn_labels (fun _ _ => (0 : ℚ))
    (fun p _ => if p.1 = 5 then 90 else 0)
    [((0 : ℚ), (0 : ℚ)), (1, 0), (2, 0), (3, 0), (4, 0), (5, 0), (6, 0),
      (7, 0), (8, 0), (9, 0), (10, 0)] []).1 5 "sharp right" hmem⟩

/- ------------------------------------------------------------------
C6: metrics calculator over the real Haversine
------------------------------------------------------------------ -/

theorem calculateTotalDistance_eq_sum {α : Type} (d : α → α → ℝ) :
    ∀ route : List α,
      calculateTotalDistance d route
        = ((route.zip route.tail).map fun pq => d pq.1 pq.2).sum := by
  intro route
  match route with
  | [] => simp [calculateTotalDistance]
  | [p] => simp [calculateTotalDistance]
  | p :: q :: rest =>
    have ih := calculateTotalDistance_eq_sum d (q :: rest)
    show d p q + calculateTotalDistance d (q :: rest) = _
    rw [ih]
    simp [List.zip_cons_cons]

theorem calculateDistance_self (p : ℝ × ℝ) : calculateDistance p p = 0 := by
  show (6371000 : ℝ) * (2 * atan2
    (Real.sqrt (Real.sin ((p.1 - p.1) * Real.pi / 180 / 2)
        * Real.sin ((p.1 - p.1) * Real.pi / 180 / 2)
      + Real.cos (p.1 * Real.pi / 180) * Real.cos (p.1 * Real.pi / 180)
        * Real.sin ((p.2 - p.2) * Real.pi / 180 / 2)
        * Real.sin ((p.2 - p.2) * Real.pi / 180 / 2)))
    (Real.sqrt (1 - (Real.sin ((p.1 - p.1) * Real.pi / 180 / 2)
        * Real.sin ((p.1 - p.1) * Real.pi / 180 / 2)
      + Real.cos (p.1 * Real.pi / 180) * Real.cos (p.1 * Real.pi / 180)
        * Real.sin ((p.2 - p.2) * Real.pi / 180 / 2)
        * Real.sin ((p.2 - p.2) * Real.pi / 180 / 2))))) = 0
  rw [sub_self]
  norm_num [Real.sin_zero, Real.sqrt_zero, Real.sqrt_one]
  rw [atan2, if_pos (by norm_num : (0 : ℝ) < 1)]
  norm_num [Real.arctan_zero]

/-- C6: the metrics calculator returns the sum of pairwise Haversine
great-circle distances between consecutive vertices and derives the
duration as distance over 1.4 m/s; a single-point polyline yields distance
0, and for coincident origin and destination both the distance and the
duration are 0. -/
theorem c6_metrics (route : List (ℝ × ℝ)) :
    calculateTotalDistance calculateDistance route
      = ((route.zip route.tail).map fun pq => calculateDistance pq.1 pq.2).sum ∧
    (∀ p : ℝ × ℝ, calculateTotalDistance calculateDistance [p] = 0) ∧
    (∀ o d : ℝ × ℝ, o = d →
      calculateTotalDistance calculateDistance [o, d] = 0 ∧
      calculateTotalDistance calculateDistance [o, d] / 1.4 = 0) := by
  refine ⟨calculateTotalDistance_eq_sum calculateDistance route,
    fun p => rfl, fun o d hod => ?_⟩
  subst hod
  have h : calculateTotalDistance calculateDistance [o, o] = 0 := by
    show calculateDistance o o + calculateTotalDistance calculateDistance [o] = 0
    rw [calculateDistance_self]
    norm_num [calculateTotalDistance]
  exact ⟨h, by rw [h]; norm_num⟩

/-- Witness for C6 with origin and destination both at the zero point. -/
theorem c6_metrics_witness :
    calculateTotalDistance calculateDistance [((0 : ℝ), (0 : ℝ)), (0, 0)] = 0 ∧
    calculateTotalDistance calculateDistance [((0 : ℝ), (0 : ℝ)), (0, 0)] / 1.4
      = 0 :=
  (c6_metrics []).2.2 (0, 0) (0, 0) rfl

/- ------------------------------------------------------------------
C2: waypoint selector - size bound, detour filter, ranking order
------------------------------------------------------------------ -/

theorem compareWaypoints_nonpos_iff (dist : DistFn) (s e : Point)
    (profile : String) (a b : Place) :
    compareWaypoints dist s e profile a b ≤ 0 ↔ rankLe dist s e profile a b := by
  simp only [compareWaypoints, rankLe]
  split_ifs with h1 h2 h3
  · -- feature counts differ
    have hne : b.accessibilityFeatures.length ≠ a.accessibilityFeatures.length := by
      intro hc
      exact h1 (by rw [hc]; ring)
    constructor
    · intro hle
      left
      have : (b.accessibilityFeatures.length : ℚ) ≤ a.accessibilityFeatures.length := by
        linarith
      have hble : b.accessibilityFeatures.length ≤ a.accessibilityFeatures.length := by
        exact_mod_cast this
      omega
    · rintro (hlt | ⟨heq, -⟩)
      · have : (b.accessibilityFeatures.length : ℚ) < a.accessibilityFeatures.length := by
          exact_mod_cast hlt
        linarith
      · exact absurd heq.symm hne
  · -- equal counts, wheelchair, a has a ramp and b does not
    have heq : a.accessibilityFeatures.length = b.accessibilityFeatures.length := by
      have : (b.accessibilityFeatures.length : ℚ) = a.accessibilityFeatures.length := by
        by_contra hc
        exact h1 (sub_ne_zero.mpr hc)
      exact_mod_cast this.symm
    obtain ⟨hw, hra, hrb⟩ := h2
    constructor
    · intro _
      exact Or.inr ⟨heq, Or.inl ⟨hw, hra, by simpa using hrb⟩⟩
    · intro _
      norm_num
  · -- equal counts, wheelchair, b has a ramp and a does not
    have heq : a.accessibilityFeatures.length = b.accessibilityFeatures.length := by
      have : (b.accessibilityFeatures.length : ℚ) = a.accessibilityFeatures.length := by
        by_contra hc
        exact h1 (sub_ne_zero.mpr hc)
      exact_mod_cast this.symm
    obtain ⟨hw, hra, hrb⟩ := h3
    constructor
    · intro hc
      exact absurd hc (by norm_num)
    · rintro (hlt | ⟨-, hcase⟩)
      · omega
      · rcases hcase with ⟨-, hra', -⟩ | ⟨hor, -⟩
        · exact absurd hra' (by simpa using hra)
        · rcases hor with hw' | hrr
          · exact absurd hw hw'
          · rw [hrb] at hrr
            simp only [Bool.not_eq_true] at hra
            rw [hra] at hrr
            cases hrr
  · -- equal counts, remaining ties: deviation comparison
    have heq : a.accessibilityFeatures.length = b.accessibilityFeatures.length := by
      have : (b.accessibilityFeatures.length : ℚ) = a.accessibilityFeatures.length := by
        by_contra hc
        exact h1 (sub_ne_zero.mpr hc)
      exact_mod_cast this.symm
    have hor : profile ≠ "wheelchair" ∨ hasRampFeature a = hasRampFeature b := by
      by_cases hw : profile = "wheelchair"
      · right
        cases hra : hasRampFeature a <;> cases hrb : hasRampFeature b
        · rfl
        · exact absurd ⟨hw, by simp [hra], by simp [hrb]⟩ h3
        · exact absurd ⟨hw, by simp [hra], by simp [hrb]⟩ h2
        · rfl
      · exact Or.inl hw
    constructor
    · intro hle
      exact Or.inr ⟨heq, Or.inr ⟨hor, by linarith⟩⟩
    · rintro (hlt | ⟨-, hcase⟩)
      · omega
      · rcases hcase with ⟨hw, hra, hrb⟩ | ⟨-, hdev⟩
        · exact absurd ⟨hw, hra, by simp [hrb]⟩ h2
        · linarith

theorem rankLe_trans (dist : DistFn) (s e : Point) (profile : String)
    (a b c : Place) (hab : rankLe dist s e profile a b)
    (hbc : rankLe dist s e profile b c) : rankLe dist s e profile a c := by
  unfold rankLe at hab hbc ⊢
  rcases hab with h1 | ⟨e1, p1⟩
  · rcases hbc with h2 | ⟨e2, p2⟩
    · left; omega
    · left; omega
  · rcases hbc with h2 | ⟨e2, p2⟩
    · left; omega
    · refine Or.inr ⟨by omega, ?_⟩
      rcases p1 with ⟨w1, ra1, rb1⟩ | ⟨hor1, hdev1⟩
      · rcases p2 with ⟨w2, rb2, rc2⟩ | ⟨hor2, hdev2⟩
        · rw [rb1] at rb2
          cases rb2
        · rcases hor2 with hw | hbcr
          · exact absurd w1 hw
          · exact Or.inl ⟨w1, ra1, by rw [← hbcr]; exact rb1⟩
      · rcases p2 with ⟨w2, rb2, rc2⟩ | ⟨hor2, hdev2⟩
        · rcases hor1 with hw | habr
          · exact absurd w2 hw
          · exact Or.inl ⟨w2, by rw [habr]; exact rb2, rc2⟩
        · refine Or.inr ⟨?_, by linarith⟩
          rcases hor1 with hw | habr
          · exact Or.inl hw
          · rcases hor2 with hw | hbcr
            · exact Or.inl hw
            · exact Or.inr (by rw [habr, hbcr])

theorem rankLe_total (dist : DistFn) (s e : Point) (profile : String)
    (a b : Place) :
    rankLe dist s e profile a b ∨ rankLe dist s e profile b a := by
  unfold rankLe
  rcases Nat.lt_trichotomy b.accessibilityFeatures.length
    a.accessibilityFeatures.length with h | h | h
  · exact Or.inl (Or.inl h)
  · by_cases hw : profile = "wheelchair"
    · cases hra : hasRampFeature a <;> cases hrb : hasRampFeature b
      · rcases le_total (detourDistance dist s e a) (detourDistance dist s e b)
          with hd | hd
        · exact Or.inl (Or.inr ⟨h.symm, Or.inr ⟨Or.inr rfl, hd⟩⟩)
        · exact Or.inr (Or.inr ⟨h, Or.inr ⟨Or.inr rfl, hd⟩⟩)
      · exact Or.inr (Or.inr ⟨h, Or.inl ⟨hw, rfl, rfl⟩⟩)
      · exact Or.inl (Or.inr ⟨h.symm, Or.inl ⟨hw, rfl, rfl⟩⟩)
      · rcases le_total (detourDistance dist s e a) (detourDistance dist s e b)
          with hd | hd
        · exact Or.inl (Or.inr ⟨h.symm, Or.inr ⟨Or.inr rfl, hd⟩⟩)
        · exact Or.inr (Or.inr ⟨h, Or.inr ⟨Or.inr rfl, hd⟩⟩)
    · rcases le_total (detourDistance dist s e a) (detourDistance dist s e b)
        with hd | hd
      · exact Or.inl (Or.inr ⟨h.symm, Or.inr ⟨Or.inl hw, hd⟩⟩)
      · exact Or.inr (Or.inr ⟨h, Or.inr ⟨Or.inl hw, hd⟩⟩)
  · exact Or.inr (Or.inl h)

theorem waypointLE_trans (dist : DistFn) (s e : Point) (profile : String)
    (a b c : Place) (hab : waypointLE dist s e profile a b = true)
    (hbc : waypointLE dist s e profile b c = true) :
    waypointLE dist s e profile a c = true := by
  simp only [waypointLE, decide_eq_true_eq, compareWaypoints_nonpos_iff]
    at hab hbc ⊢
  exact rankLe_trans dist s e profile a b c hab hbc

theorem waypointLE_total (dist : DistFn) (s e : Point) (profile : String)
    (a b : Place) :
    (waypointLE dist s e profile a b || waypointLE dist s e profile b a) = true := by
  simp only [waypointLE, Bool.or_eq_true, decide_eq_true_eq,
    compareWaypoints_nonpos_iff]
  exact rankLe_total dist s e profile a b

/-- C2: the waypoint selector returns at most 5 entries; every returned
entry passes the 1.2-times detour filter; and the returned list is sorted
by the claimed ranking: descending accessibility-feature count, then (for
the wheelchair profile) ramp-bearing candidates first, then smaller detour
distance. -/
theorem c2_waypoint_selector (dist : DistFn) (s e : Point)
    (places : List Place) (profile : String) :
    (selectedWaypoints dist s e places profile).length ≤ 5 ∧
    (∀ p ∈ selectedWaypoints dist s e places profile,
      detourDistance dist s e p ≤ dist s e * (6 / 5)) ∧
    List.Sorted (rankLe dist s e profile)
      (selectedWaypoints dist s e places profile) := by
  refine ⟨?_, ?_, ?_⟩
  · show (List.take _ _).length ≤ 5
    rw [List.length_take]
    exact le_trans (min_le_left _ _) (min_le_left _ _)
  · intro p hp
    have h1 : p ∈ sortedWaypoints dist s e places profile :=
      List.mem_of_mem_take hp
    have h2 : p ∈ potentialWaypoints dist s e places :=
      List.mem_mergeSort.mp h1
    have h3 := (List.mem_filter.mp h2).2
    rwa [decide_eq_true_eq] at h3
  · have hs := @List.sorted_mergeSort Place (waypointLE dist s e profile)
      (waypointLE_trans dist s e profile) (waypointLE_total dist s e profile)
      (potentialWaypoints dist s e places)
    have hr : List.Pairwise (rankLe dist s e profile)
        (sortedWaypoints dist s e places profile) := by
      refine hs.imp ?_
      intro x y hxy
      rw [waypointLE, decide_eq_true_eq, compareWaypoints_nonpos_iff] at hxy
      exact hxy
    exact List.Pairwise.sublist (List.take_sublist _ _) hr

/-- Witness for C2: a single in-band candidate is selected, and the
detour bound holds for it. -/
theorem c2_waypoint_selector_witness :
    Place.mk 1 "P" 0 0 [] ∈ selectedWaypoints (fun _ _ => 0) (0, 0) (0, 0)
      [Place.mk 1 "P" 0 0 []] "wheelchair" ∧
    detourDistance (fun _ _ => 0) (0, 0) (0, 0) (Place.mk 1 "P" 0 0 [])
      ≤ (fun _ _ => (0 : ℚ)) ((0 : ℚ), (0 : ℚ)) ((0 : ℚ), (0 : ℚ)) * (6 / 5) := by
  have hpw : potentialWaypoints (fun _ _ => 0) (0, 0) (0, 0)
      [Place.mk 1 "P" 0 0 []] = [Place.mk 1 "P" 0 0 []] := by
    unfold potentialWaypoints detourDistance
    norm_num
  have hsel : selectedWaypoints (fun _ _ => 0) (0, 0) (0, 0)
      [Place.mk 1 "P" 0 0 []] "wheelchair" = [Place.mk 1 "P" 0 0 []] := by
    unfold selectedWaypoints sortedWaypoints
    rw [hpw, List.mergeSort_singleton]
    rfl
  have hmem : Place.mk 1 "P" 0 0 [] ∈ selectedWaypoints (fun _ _ => 0) (0, 0)
      (0, 0) [Place.mk 1 "P" 0 0 []] "wheelchair" := by
    rw [hsel]
    exact List.mem_singleton.mpr rfl
  exact ⟨hmem, (c2_waypoint_selector (fun _ _ => 0) (0, 0) (0, 0)
    [Place.mk 1 "P" 0 0 []] "wheelchair").2.1 _ hmem⟩

/- ------------------------------------------------------------------
C5: the while-loop ordering is greedy nearest-neighbor
------------------------------------------------------------------ -/

theorem scanClosest_eq (d : Place → ℚ) :
    ∀ (ws : List Place) (i bi : ℕ) (bd : Option ℚ),
      scanClosest d ws i (bi, bd)
        = match bd, firstMinIdx d ws with
          | none, (_, none) => (bi, none)
          | none, (j, some m) => (i + j, some m)
          | some v, (_, none) => (bi, some v)
          | some v, (j, some m) =>
            if m < v then (i + j, some m) else (bi, some v) := by
  intro ws
  induction ws with
  | nil =>
    intro i bi bd
    cases bd <;> rfl
  | cons w ws ih =>
    intro i bi bd
    cases bd with
    | none =>
      show scanClosest d ws (i + 1) (i, some (d w)) = _
      rw [ih]
      rcases h : firstMinIdx d ws with ⟨j, mo⟩
      cases mo with
      | none => simp [firstMinIdx, h]
      | some m =>
        by_cases hm : m < d w
        · simp only [firstMinIdx, h, if_pos hm]
          exact congrArg (fun k => (k, some m)) (by omega : i + 1 + j = i + (j + 1))
        · simp [firstMinIdx, h, hm]
    | some v =>
      show scanClosest d ws (i + 1)
        (if d w < v then (i, some (d w)) else (bi, some v)) = _
      by_cases hv : d w < v
      · rw [if_pos hv, ih]
        rcases h : firstMinIdx d ws with ⟨j, mo⟩
        cases mo with
        | none => simp [firstMinIdx, h, hv]
        | some m =>
          by_cases hm : m < d w
          · have hmv : m < v := lt_trans hm hv
            simp only [firstMinIdx, h, if_pos hm, if_pos hmv]
            exact congrArg (fun k => (k, some m)) (by omega : i + 1 + j = i + (j + 1))
          · simp [firstMinIdx, h, hm, hv]
      · rw [if_neg hv, ih]
        rcases h : firstMinIdx d ws with ⟨j, mo⟩
        cases mo with
        | none => simp [firstMinIdx, h, hv]
        | some m =>
          by_cases hm : m < d w
          · by_cases hmv : m < v
            · simp only [firstMinIdx, h, if_pos hm, if_pos hmv]
              exact congrArg (fun k => (k, some m)) (by omega : i + 1 + j = i + (j + 1))
            · simp [firstMinIdx, h, hm, hmv]
          · have hmv : ¬m < v :=
              not_lt.mpr (le_trans (not_lt.mp hv) (not_lt.mp hm))
            simp [firstMinIdx, h, hm, hv, hmv]

theorem firstMinIdx_spec (d : Place → ℚ) :
    ∀ (ws : List Place) (w₀ : Place), ws ≠ [] →
      ∃ j m, firstMinIdx d ws = (j, some m) ∧ j < ws.length ∧
        d (ws.getD j w₀) = m ∧ (∀ q ∈ ws, m ≤ d q) ∧
        (∀ k, k < j → m < d (ws.getD k w₀)) := by
  intro ws
  induction ws with
  | nil => intro w₀ h; exact absurd rfl h
  | cons w ws ih =>
    intro w₀ _
    by_cases hnil : ws = []
    · subst hnil
      refine ⟨0, d w, rfl, by simp, by simp, ?_, ?_⟩
      · intro q hq
        rw [List.mem_singleton.mp hq]
      · intro k hk
        omega
    · obtain ⟨j, m, hfm, hj, hg, hmin, hfirst⟩ := ih w₀ hnil
      by_cases hm : m < d w
      · refine ⟨j + 1, m, ?_, by simp; omega, ?_, ?_, ?_⟩
        · simp [firstMinIdx, hfm, hm]
        · rw [List.getD_cons_succ]
          exact hg
        · intro q hq
          rcases List.mem_cons.mp hq with rfl | hq'
          · exact le_of_lt hm
          · exact hmin q hq'
        · intro k hk
          cases k with
          | zero =>
            rw [List.getD_cons_zero]
            exact hm
          | succ k' =>
            rw [List.getD_cons_succ]
            exact hfirst k' (by omega)
      · refine ⟨0, d w, ?_, by simp, by rw [List.getD_cons_zero], ?_, ?_⟩
        · simp [firstMinIdx, hfm, hm]
        · intro q hq
          rcases List.mem_cons.mp hq with rfl | hq'
          · exact le_refl _
          · exact le_trans (not_lt.mp hm) (hmin q hq')
        · intro k hk
          omega

theorem find?_of_first {α : Type} (p : α → Bool) :
    ∀ (l : List α) (w₀ : α) (j : ℕ), j < l.length → p (l.getD j w₀) = true →
      (∀ k, k < j → p (l.getD k w₀) = false) →
      l.find? p = some (l.getD j w₀) := by
  intro l
  induction l with
  | nil =>
    intro w₀ j hj _ _
    exact absurd hj (by simp)
  | cons a t ih =>
    intro w₀ j hj hsat hbef
    cases j with
    | zero =>
      rw [List.getD_cons_zero] at hsat ⊢
      simp [List.find?_cons, hsat]
    | succ j' =>
      have h0 := hbef 0 (by omega)
      rw [List.getD_cons_zero] at h0
      rw [List.getD_cons_succ]
      rw [List.getD_cons_succ] at hsat
      have htail := ih w₀ j' (by simpa using hj) hsat
        (fun k hk => by
          have := hbef (k + 1) (by omega)
          rwa [List.getD_cons_succ] at this)
      simp [List.find?_cons, h0, htail]

theorem erase_getD_of_first :
    ∀ (l : List Place) (w₀ : Place) (j : ℕ), j < l.length →
      (∀ k, k < j → l.getD k w₀ ≠ l.getD j w₀) →
      l.erase (l.getD j w₀) = l.eraseIdx j := by
  intro l
  induction l with
  | nil =>
    intro w₀ j hj _
    exact absurd hj (by simp)
  | cons a t ih =>
    intro w₀ j hj hne
    cases j with
    | zero =>
      rw [List.getD_cons_zero, List.erase_cons_head]
      rfl
    | succ j' =>
      have h0 : a ≠ (a :: t).getD (j' + 1) w₀ := hne 0 (by omega)
      rw [List.getD_cons_succ] at h0
      rw [List.getD_cons_succ]
      rw [List.erase_cons_tail (by simpa [beq_iff_eq] using h0)]
      rw [show (a :: t).eraseIdx (j' + 1) = a :: t.eraseIdx j' from rfl]
      exact congrArg (a :: ·) (ih w₀ j' (by simpa using hj)
        (fun k hk => by
          have := hne (k + 1) (by omega)
          rwa [List.getD_cons_succ, List.getD_cons_succ] at this))

theorem greedyGo_eq_specGreedy (dist : DistFn) :
    ∀ (n : ℕ) (cur : Point) (ws : List Place), ws.length = n →
      greedyGo dist n cur ws = specGreedy dist cur ws := by
  intro n
  induction n with
  | zero =>
    intro cur ws hlen
    have hnil : ws = [] := List.length_eq_zero.mp hlen
    subst hnil
    rw [specGreedy]
    rfl
  | succ n ih =>
    intro cur ws hlen
    rcases ws with _ | ⟨w, t⟩
    · simp at hlen
    · obtain ⟨j, m, hfm, hj, hg, hmin, hfirst⟩ :=
        firstMinIdx_spec (fun p => dist cur (p.lat, p.lng)) (w :: t) w (by simp)
      have hidx : findClosestIdx (fun p => dist cur (p.lat, p.lng)) (w :: t) = j := by
        unfold findClosestIdx
        rw [scanClosest_eq _ (w :: t) 0 0 none, hfm]
        simp
      have hsat : ((w :: t).all fun q =>
          decide (dist cur (((w :: t).getD j w).lat, ((w :: t).getD j w).lng)
            ≤ dist cur (q.lat, q.lng))) = true := by
        rw [List.all_eq_true]
        intro q hq
        rw [decide_eq_true_eq, hg]
        exact hmin q hq
      have hbef : ∀ k, k < j → ((w :: t).all fun q =>
          decide (dist cur (((w :: t).getD k w).lat, ((w :: t).getD k w).lng)
            ≤ dist cur (q.lat, q.lng))) = false := by
        intro k hk
        rw [Bool.eq_false_iff]
        intro hcontra
        rw [List.all_eq_true] at hcontra
        have hmem : (w :: t).getD j w ∈ w :: t := by
          rw [List.getD_eq_getElem _ _ hj]
          exact List.getElem_mem hj
        have h1 := hcontra ((w :: t).getD j w) hmem
        rw [decide_eq_true_eq, hg] at h1
        exact absurd h1 (not_le.mpr (hfirst k hk))
      have hfind : (w :: t).find? (fun p => (w :: t).all fun q =>
            decide (dist cur (p.lat, p.lng) ≤ dist cur (q.lat, q.lng)))
          = some ((w :: t).getD j w) :=
        find?_of_first _ (w :: t) w j hj hsat hbef
      have hne : ∀ k, k < j → (w :: t).getD k w ≠ (w :: t).getD j w := by
        intro k hk heq
        have := hfirst k hk
        rw [heq, hg] at this
        exact absurd this (lt_irrefl m)
      have herase : (w :: t).erase ((w :: t).getD j w) = (w :: t).eraseIdx j :=
        erase_getD_of_first (w :: t) w j hj hne
      have hlen' : ((w :: t).eraseIdx j).length = n := by
        rw [List.length_eraseIdx, if_pos hj]
        simpa using hlen
      show ((((w :: t).getD (findClosestIdx (fun p => dist cur (p.lat, p.lng))
          (w :: t)) w)).lat, _) :: _ = _
      rw [specGreedy]
      split
      · next heq =>
        rw [hfind] at heq
        cases heq
      · next pfound heq =>
        rw [hfind] at heq
        injection heq with heq'
        subst heq'
        rw [hidx, herase]
        exact congrArg _ (ih _ ((w :: t).eraseIdx j) hlen')

/-- C5: the route assembler orders the selected waypoints by greedy
nearest-neighbor exactly as the specification words it (repeatedly pick
the remaining waypoint closest to the current point and advance to it),
and the pre-smoothing vertex list of generateAccessibleRoute is exactly
[origin, ...waypoints in that order, destination]. -/
theorem c5_greedy_order (dist : DistFn) (s e : Point) (places : List Place)
    (profile : String) (rng : ℕ → ℚ) (cur : Point) (ws : List Place) :
    greedyOrder dist cur ws = specGreedy dist cur ws ∧
    generateAccessibleRoute dist s e places profile rng
      = smoothRoute rng
        (s :: (specGreedy dist s (selectedWaypoints dist s e places profile)
          ++ [e])) := by
  constructor
  · exact greedyGo_eq_specGreedy dist ws.length cur ws rfl
  · unfold generateAccessibleRoute greedyOrder
    rw [greedyGo_eq_specGreedy dist _ s _ rfl]

end AccessMap
